import Mathlib

/-!
Verification of the `dotgraph` conversion facade (`src/dotgraph.py`).

The Python module exposes a class `DotGraph` over a stored input path with
derived views: a parsed graph (`graph`, via `networkx.read_dot`), a node-link
dictionary (`dict`, via `networkx.readwrite.json_graph.node_link_data`), a JSON
string (`json`, via a lazily created `json.JSONEncoder`), an HTML fragment
(`html`, `%`-substitution of a unique id and the JSON into a template), a
notebook renderer (`render`), and a `__main__` command-line driver.

Python strings are embedded as `List Char`; the file system as a partial map
from paths to contents; the external collaborators (`networkx`, the `json`
module, `IPython.core.display`, `time.time`/`hash`) are modelled from the
spec where their code is not part of this repository.
-/

set_option maxRecDepth 10000

namespace Dotgraph

/-- Python strings are modelled as lists of characters. -/
abbrev Str := List Char

/-- JSON values as produced by the node-link pipeline: `null`, booleans,
non-negative integers (the only numbers the node-link projector emits are
list indices), strings, arrays and objects with ordered members. -/
inductive Json where
  | null : Json
  | bool (b : Bool) : Json
  | num (n : Nat) : Json
  | str (s : Str) : Json
  | arr (elems : List Json) : Json
  | obj (members : List (Str × Json)) : Json

/-- The decimal digit character for `d < 10` (Python `str` of a digit). -/
def digitChar (d : Nat) : Char := Char.ofNat (48 + d)

/-- Fuel-driven decimal printing helper (most significant digit first). -/
def natReprAux : Nat → Nat → Str
  | 0, _ => []
  | fuel + 1, n => if n < 10 then [digitChar n] else natReprAux fuel (n / 10) ++ [digitChar (n % 10)]

/-- Decimal representation of a natural number, as Python `str(n)` prints it. -/
def natReprL (n : Nat) : Str := natReprAux (n + 1) n

/-- Decimal representation of a Python `int`, with a leading minus sign for
negative values (Python `str(h)` / `'%s' % h`). -/
def intReprL : Int → Str
  | .ofNat n => natReprL n
  | .negSucc n => '-' :: natReprL (n + 1)

/-- Lowercase hexadecimal digit character for `d < 16`. -/
def hexDigitChar (d : Nat) : Char :=
  if d < 10 then Char.ofNat (48 + d) else Char.ofNat (87 + d)

/-- Four-digit lowercase hex rendering, as Python's `\uXXXX` escapes use. -/
def hex4 (n : Nat) : Str :=
  [hexDigitChar (n / 4096 % 16), hexDigitChar (n / 256 % 16),
   hexDigitChar (n / 16 % 16), hexDigitChar (n % 16)]

/-- Modelled from the spec: the `\uXXXX` escape Python's `json.JSONEncoder`
(`ensure_ascii=True` default) emits for a non-ASCII or control character,
with a surrogate pair for code points beyond the basic multilingual plane. -/
def uEscape (c : Char) : Str :=
  let n := c.toNat
  if n < 65536 then '\\' :: 'u' :: hex4 n
  else
    let m := n - 65536
    '\\' :: 'u' :: hex4 (55296 + m / 1024) ++ '\\' :: 'u' :: hex4 (56320 + m % 1024)

/-- Modelled from the spec: per-character escaping of Python's default
`json.JSONEncoder` (`py_encode_basestring_ascii`): the two-character escapes
for quote, backslash and common control characters, `\uXXXX` for every other
character outside printable ASCII `0x20 ≤ c ≤ 0x7e`, and the character
itself otherwise. -/
def escChar (c : Char) : Str :=
  if c = '"' then ['\\', '"']
  else if c = '\\' then ['\\', '\\']
  else if c = '\n' then ['\\', 'n']
  else if c = '\r' then ['\\', 'r']
  else if c = '\t' then ['\\', 't']
  else if c.toNat = 8 then ['\\', 'b']
  else if c.toNat = 12 then ['\\', 'f']
  else if c.toNat < 32 ∨ 127 ≤ c.toNat then uEscape c
  else [c]

/-- String-body escaping: concatenation of the per-character escapes. -/
def escStr : Str → Str
  | [] => []
  | c :: cs => escChar c ++ escStr cs

mutual

/-- Modelled from the spec: the serializer. Encoding of a JSON value exactly
as Python's default `json.JSONEncoder().encode` prints it: literals `null`,
`true`, `false`, decimal numbers, double-quoted escaped strings, and
`", "` / `": "` item and key separators. -/
def encL : Json → Str
  | .null => "null".data
  | .bool true => "true".data
  | .bool false => "false".data
  | .num n => natReprL n
  | .str s => '"' :: (escStr s ++ ['"'])
  | .arr [] => "[]".data
  | .arr (x :: xs) => '[' :: (encL x ++ encTail xs ++ [']'])
  | .obj [] => "\x7b\x7d".data
  | .obj (m :: ms) => '\x7b' :: (encMember m ++ encMTail ms ++ ['\x7d'])

/-- Remaining array elements, each preceded by the `", "` separator. -/
def encTail : List Json → Str
  | [] => []
  | x :: xs => ',' :: ' ' :: (encL x ++ encTail xs)

/-- One object member: quoted escaped key, `": "`, encoded value. -/
def encMember : Str × Json → Str
  | (k, v) => '"' :: (escStr k ++ '"' :: ':' :: ' ' :: encL v)

/-- Remaining object members, each preceded by the `", "` separator. -/
def encMTail : List (Str × Json) → Str
  | [] => []
  | m :: ms => ',' :: ' ' :: (encMember m ++ encMTail ms)

end

mutual

/-- Structural size of a JSON value, used as a sufficient recursion budget
for the parser: one unit per parser step that descends into a subterm. -/
def jsize : Json → Nat
  | .null => 1
  | .bool _ => 1
  | .num _ => 1
  | .str _ => 1
  | .arr [] => 1
  | .arr (x :: xs) => 1 + jsize x + jsizeElems xs
  | .obj [] => 1
  | .obj ((_, v) :: ms) => 1 + jsize v + jsizeMembers ms

/-- Budget for the remaining elements of an array. -/
def jsizeElems : List Json → Nat
  | [] => 1
  | x :: xs => 1 + jsize x + jsizeElems xs

/-- Budget for the remaining members of an object. -/
def jsizeMembers : List (Str × Json) → Nat
  | [] => 1
  | (_, v) :: ms => 1 + jsize v + jsizeMembers ms

end

/-- Modelled from the spec: decoding of the two-character string escapes that
`json.loads` accepts (the inverse of the short escapes in `escChar`). -/
def unescapeChar (e : Char) : Option Char :=
  if e = '"' then some '"'
  else if e = '\\' then some '\\'
  else if e = '/' then some '/'
  else if e = 'n' then some '\n'
  else if e = 'r' then some '\r'
  else if e = 't' then some '\t'
  else if e = 'b' then some (Char.ofNat 8)
  else if e = 'f' then some (Char.ofNat 12)
  else none

/-- Parse the body of a JSON string after the opening quote, decoding the
short escapes, up to the terminating quote; returns the decoded body and the
remaining input. -/
def parseStrTail : Str → Option (Str × Str)
  | [] => none
  | c :: cs =>
    if c = '"' then some ([], cs)
    else if c = '\\' then
      match cs with
      | [] => none
      | e :: cs' =>
        match unescapeChar e with
        | none => none
        | some d =>
          match parseStrTail cs' with
          | none => none
          | some (s, r) => some (d :: s, r)
    else
      match parseStrTail cs with
      | none => none
      | some (s, r) => some (c :: s, r)

/-- Parse a run of decimal digits into an accumulator (most significant
digits already in `acc`); stops at the first non-digit. -/
def parseDigits : Nat → Str → Nat × Str
  | acc, [] => (acc, [])
  | acc, c :: cs =>
    if c.isDigit then parseDigits (acc * 10 + (c.toNat - 48)) cs else (acc, c :: cs)

/-- Modelled from the spec: a recursive-descent JSON reader (the round-trip
direction of `json.loads`) covering exactly the grammar the encoder `encL`
emits: the three literals, decimal naturals, quoted strings with short
escapes, and arrays/objects with `", "` and `": "` separators. The fuel
argument bounds the nesting recursion; one recursion step produces the
triple of mutually recursive readers (value, remaining array elements,
remaining object members). -/
def parsers : Nat →
    (Str → Option (Json × Str)) × (Str → Option (List Json × Str)) ×
      (Str → Option (List (Str × Json) × Str))
  | 0 => (fun _ => none, fun _ => none, fun _ => none)
  | fuel + 1 =>
    ( fun cs =>
        match cs with
        | [] => none
        | c :: cs' =>
          if c = '"' then
            match parseStrTail cs' with
            | none => none
            | some (s, r) => some (.str s, r)
          else if c = '[' then
            if cs'.head? = some ']' then some (.arr [], cs'.tail)
            else
              match (parsers fuel).1 cs' with
              | none => none
              | some (x, r1) =>
                match (parsers fuel).2.1 r1 with
                | none => none
                | some (xs, r2) => some (.arr (x :: xs), r2)
          else if c = '\x7b' then
            if cs'.head? = some '\x7d' then some (.obj [], cs'.tail)
            else
              match cs' with
              | '"' :: cs'' =>
                match parseStrTail cs'' with
                | none => none
                | some (k, r1) =>
                  match r1 with
                  | ':' :: ' ' :: r2 =>
                    match (parsers fuel).1 r2 with
                    | none => none
                    | some (v, r3) =>
                      match (parsers fuel).2.2 r3 with
                      | none => none
                      | some (ms, r4) => some (.obj ((k, v) :: ms), r4)
                  | _ => none
              | _ => none
          else if c = 'n' then
            match cs' with
            | 'u' :: 'l' :: 'l' :: r => some (.null, r)
            | _ => none
          else if c = 't' then
            match cs' with
            | 'r' :: 'u' :: 'e' :: r => some (.bool true, r)
            | _ => none
          else if c = 'f' then
            match cs' with
            | 'a' :: 'l' :: 's' :: 'e' :: r => some (.bool false, r)
            | _ => none
          else if c.isDigit then
            match parseDigits (c.toNat - 48) cs' with
            | (n, r) => some (.num n, r)
          else none,
      fun cs =>
        match cs with
        | ']' :: r => some ([], r)
        | ',' :: ' ' :: cs' =>
          match (parsers fuel).1 cs' with
          | none => none
          | some (x, r1) =>
            match (parsers fuel).2.1 r1 with
            | none => none
            | some (xs, r2) => some (x :: xs, r2)
        | _ => none,
      fun cs =>
        match cs with
        | '\x7d' :: r => some ([], r)
        | ',' :: ' ' :: '"' :: cs' =>
          match parseStrTail cs' with
          | none => none
          | some (k, r1) =>
            match r1 with
            | ':' :: ' ' :: r2 =>
              match (parsers fuel).1 r2 with
              | none => none
              | some (v, r3) =>
                match (parsers fuel).2.2 r3 with
                | none => none
                | some (ms, r4) => some ((k, v) :: ms, r4)
            | _ => none
        | _ => none )

/-- Reading one JSON value at the given recursion budget. -/
def parseVal (fuel : Nat) (cs : Str) : Option (Json × Str) := (parsers fuel).1 cs

/-- After the first array element: either the closing bracket or a `", "`
separator followed by the next element. -/
def parseElems (fuel : Nat) (cs : Str) : Option (List Json × Str) := (parsers fuel).2.1 cs

/-- After the first object member: either the closing brace or a `", "`
separator followed by the next `"key": value` member. -/
def parseMembers (fuel : Nat) (cs : Str) : Option (List (Str × Json) × Str) :=
  (parsers fuel).2.2 cs

/-- Modelled from the spec: parsing a complete JSON text (`json.loads`): the
whole input must be consumed. The fuel `s.length + 1` dominates any nesting
depth an input of that length can have. -/
def jparse (s : Str) : Option Json :=
  match parseVal (s.length + 1) s with
  | some (j, []) => some j
  | _ => none

/-- A dot attribute mapping: ordered string key/value pairs. -/
abbrev Attrs := List (Str × Str)

/-- Modelled from the spec: the directed-graph object `networkx.read_dot`
produces — graph-level attributes, nodes (identifier plus attribute mapping)
and edges (source id, target id, attribute mapping), each in insertion
order, plus the `directed`/`multigraph` flags the node-link projector
copies out. -/
structure Graph where
  directed : Bool
  multigraph : Bool
  graphAttrs : Attrs
  nodes : List (Str × Attrs)
  edges : List (Str × Str × Attrs)

/-- The node identifiers of a graph, in node order. -/
def Graph.ids (g : Graph) : List Str := g.nodes.map Prod.fst

/-- Well-formedness as networkx maintains it: adding an edge adds its
endpoints, so every edge endpoint is a node of the graph. -/
def Graph.WF (g : Graph) : Prop :=
  ∀ e ∈ g.edges, e.1 ∈ g.ids ∧ e.2.1 ∈ g.ids

/-- One record of the node-link `nodes` sequence: the node's attributes
followed by its original identifier under the `id` key. -/
structure NLNode where
  attrs : Attrs
  id : Str

/-- One record of the node-link `links` sequence: the edge attributes
followed by integer `source`/`target` indices into the node sequence. -/
structure NLLink where
  attrs : Attrs
  source : Nat
  target : Nat

/-- The node-link mapping: the value of the `dict` property. -/
structure NodeLink where
  directed : Bool
  multigraph : Bool
  graphAttrs : Attrs
  nodes : List NLNode
  links : List NLLink

/-- Modelled from the spec: the external adapter
`networkx.readwrite.json_graph.node_link_data` — nodes in graph order, each
edge projected to the positions of its endpoints in the node sequence. -/
def node_link_data (g : Graph) : NodeLink where
  directed := g.directed
  multigraph := g.multigraph
  graphAttrs := g.graphAttrs
  nodes := g.nodes.map fun nd => ⟨nd.2, nd.1⟩
  links := g.edges.map fun e => ⟨e.2.2, g.ids.indexOf e.1, g.ids.indexOf e.2.1⟩

/-- Attribute pairs as ordered JSON object members. -/
def attrsJson (a : Attrs) : List (Str × Json) := a.map fun kv => (kv.1, Json.str kv.2)

/-- A node record as the JSON object `{...attrs, "id": id}`. -/
def NLNode.toJson (n : NLNode) : Json :=
  Json.obj (attrsJson n.attrs ++ [("id".data, Json.str n.id)])

/-- A link record as the JSON object `{...attrs, "source": i, "target": j}`. -/
def NLLink.toJson (l : NLLink) : Json :=
  Json.obj (attrsJson l.attrs ++
    [("source".data, Json.num l.source), ("target".data, Json.num l.target)])

/-- The node-link mapping as a JSON value, in the key order the adapter
builds the dictionary. -/
def NodeLink.toJson (d : NodeLink) : Json :=
  Json.obj
    [("directed".data, Json.bool d.directed),
     ("multigraph".data, Json.bool d.multigraph),
     ("graph".data, Json.obj (attrsJson d.graphAttrs)),
     ("nodes".data, Json.arr (d.nodes.map NLNode.toJson)),
     ("links".data, Json.arr (d.links.map NLLink.toJson))]

/-- The JSON value behind the `json` property for a parsed graph `g`. -/
def jsonValOf (g : Graph) : Json := (node_link_data g).toJson

/-- The JSON text of the `json` property for a parsed graph `g`. -/
def jsonOf (g : Graph) : Str := encL (jsonValOf g)

/-- Modelled from the spec: the instance-scoped `json.JSONEncoder` object the
`json` property creates lazily; the default encoder carries no state that
affects its output. -/
structure JSONEncoder where

/-- Encoding with a (default-configuration) encoder object. -/
def JSONEncoder.encode (_ : JSONEncoder) (j : Json) : Str := encL j

/-- The facade's per-instance state: the stored input path, the optional
instance template attribute (shadowing the class attribute when present, as
`self._template = template` does), and the lazily created `_jenc` encoder
attribute (`none` models the attribute being absent). -/
structure DotGraph where
  infile : String
  tmplOverride : Option Str
  jenc : Option JSONEncoder

/-- The process-wide class state: `DotGraph._template`, the class attribute
holding the default template. -/
structure PyWorld where
  classTemplate : Str

def tplA : Str :=
  "\n    <div id=\"".data

def tplB : Str :=
  "\"></div>\n    <style>\n    .node \x7b\n        stroke-width: 1.5px;\n    \x7d\n    .node text \x7b\n        color: black;\n        font: 10px sans-serif;\n    \x7d\n    .link \x7b\n        fill: none;\n        stroke: #bbb;\n    \x7d\n    </style>\n\n    <script>\n    var graph = ".data

def tplC : Str :=
  ";\n    \n    require.config(\x7bpaths: \x7bd3: \"https://d3js.org/d3.v3.min\"\x7d\x7d);\n    \n    require([\"d3\"], function(d3) \x7b\n    \n        var width = 1000, height = 450;\n        var rwidth = 150, rheight=20;\n        var rr = 10;\n        var color = d3.scale.category10();\n        var domain = [0, 1, 2, 3];\n        color.domain(domain);\n        \n        var force = d3.layout.force()\n            .charge(-200)\n            .linkDistance(50)\n            .linkStrength(2)\n            .size([width, height]);\n            \n        var svg = d3.select(\"#".data

def tplD : Str :=
  "\").select(\"svg\");\n        \n        if (svg.empty()) \x7b\n            svg = d3.select(\"#".data

def tplE : Str :=
  "\").append(\"svg\")\n                        .attr(\"width\", width)\n                        .attr(\"height\", height);\n        \x7d\n        \n        var nodes = graph.nodes.slice(),\n        links = [],\n        bilinks = [];\n      \n        graph.links.forEach(function(link) \x7b\n            var s = nodes[link.source],\n            t = nodes[link.target],\n            i = \x7b\x7d; // intermediate node\n            nodes.push(i);\n            links.push(\x7bsource: s, target: i\x7d, \x7bsource: i, target: t\x7d);\n            bilinks.push([s, i, t]);\n        \x7d);\n        \n        force.nodes(nodes)\n            .links(links)\n            .start();\n            \n        var link = svg.selectAll(\".link\")\n            .data(bilinks)\n            .enter().append(\"path\")\n            .attr(\"class\", \"link\");\n            \n        var node = svg.selectAll(\".node\")\n            .data(graph.nodes)\n            .enter().append(\"g\")\n            .attr(\"class\", \"node\")\n            .call(force.drag);\n            \n        node.append(\"rect\")\n            .attr(\"x\", -rwidth/2)\n            .attr(\"y\", -rheight/2)\n            .attr(\"width\", rwidth)\n            .attr(\"height\", rheight)\n            .attr(\"rx\", rr)\n            .attr(\"ry\", rr)\n            .style(\"fill\", \"white\")\n            .style(\"stroke\", \"black\");\n        \n        node.append(\"text\")\n            .attr(\"dx\", 0)\n            .attr(\"dy\", 3)\n            .attr(\"text-anchor\", \"middle\")\n            .text(function(d) \x7b return d.label; \x7d);\n            \n        node.append(\"title\")\n            .text(function(d) \x7b return d.label; \x7d);\n            \n        force.on(\"tick\", function() \x7b\n            link.attr(\"d\", function(d) \x7b\n                return \"M\" + d[0].x + \",\" + d[0].y + \"S\" + d[1].x + \",\" + d[1].y + \" \" + d[2].x + \",\" + d[2].y;\n            \x7d);\n            \n            node.attr(\"transform\", function(d) \x7b return \"translate(\" + d.x + \",\" + d.y + \")\"; \x7d);\n        \x7d);\n    \x7d);\n    </script>\n    ".data

/-- The `%(uniqueID)s` placeholder. -/
def placeholderU : Str := "%(uniqueID)s".data

/-- The `%(JSONData)s` placeholder. -/
def placeholderJ : Str := "%(JSONData)s".data

/-- The class-level `_template` literal of `DotGraph`, written as its
placeholder-free segments around the four placeholder occurrences (one
`%(uniqueID)s` in the div id, `%(JSONData)s` in the script block, and two
more `%(uniqueID)s` in the d3 selectors). -/
def defaultTemplate : Str :=
  tplA ++ placeholderU ++ tplB ++ placeholderJ ++ tplC ++ placeholderU ++
    tplD ++ placeholderU ++ tplE

/-- The interpreter state at module load: the class attribute holds the
default template literal. -/
def world0 : PyWorld := ⟨defaultTemplate⟩

/-- `DotGraph.__init__`: stores the path; when a template is supplied,
assigns the instance attribute `_template` (the class attribute is not
touched, so the world is returned unchanged). No file access occurs and the
function is total: construction never fails. -/
def DotGraph.init (w : PyWorld) (infile : String) (template : Option Str) :
    DotGraph × PyWorld :=
  (⟨infile, template, none⟩, w)

/-- Python attribute lookup for `self._template`: the instance attribute if
present, otherwise the class attribute. -/
def DotGraph.activeTemplate (w : PyWorld) (dg : DotGraph) : Str :=
  dg.tmplOverride.getD w.classTemplate

/-- The `json` property as a state transformer: creates the `_jenc` encoder
on first access, re-encodes the freshly recomputed node-link value of the
currently parsed graph `g`, and returns the text with the updated instance. -/
def DotGraph.jsonAccess (dg : DotGraph) (g : Graph) : Str × DotGraph :=
  let enc := dg.jenc.getD ⟨⟩
  (enc.encode (node_link_data g).toJson, { dg with jenc := some enc })

/-- Return the key text before a closing parenthesis, and the rest. -/
def splitKey : Str → Option (Str × Str)
  | [] => none
  | c :: cs =>
    if c = ')' then some ([], cs)
    else
      match splitKey cs with
      | none => none
      | some (k, r) => some (c :: k, r)

/-- Modelled from the spec: Python's `template % mapping` string formatting
as the templates exercise it: each `%(key)s` directive is replaced by the
mapping's value, `%%` yields a literal percent, and a missing key
(`KeyError`), an unsupported conversion or a dangling `%` (`ValueError`) is
an error, modelled as `none`. The fuel argument bounds the recursion; the
wrapper `subst` supplies enough for the whole template. -/
def substAux (f : Str → Option Str) : Nat → Str → Option Str
  | 0, _ => none
  | _ + 1, [] => some []
  | fuel + 1, c :: cs =>
    if c = '%' then
      match cs with
      | [] => none
      | c' :: cs' =>
        if c' = '(' then
          match splitKey cs' with
          | none => none
          | some (key, rest) =>
            match rest with
            | [] => none
            | c'' :: rest' =>
              if c'' = 's' then
                match f key with
                | none => none
                | some v =>
                  match substAux f fuel rest' with
                  | none => none
                  | some t => some (v ++ t)
              else none
        else if c' = '%' then
          match substAux f fuel cs' with
          | none => none
          | some t => some ('%' :: t)
        else none
    else
      match substAux f fuel cs with
      | none => none
      | some t => some (c :: t)

/-- `template % mapping` on a whole template. -/
def subst (f : Str → Option Str) (tpl : Str) : Option Str :=
  substAux f (tpl.length + 1) tpl

/-- The substituted unique identifier `'Graph%s' % hash(time.time())`, as a
function of the observed hash value `h` (time and hashing are external, so
the html view takes the observed value as a parameter). -/
def uniqueID (h : Int) : Str := "Graph".data ++ intReprL h

/-- The `formatDict` mapping the `html` property builds: exactly the keys
`uniqueID` and `JSONData`. -/
def formatMap (h : Int) (g : Graph) : Str → Option Str := fun k =>
  if k = "uniqueID".data then some (uniqueID h)
  else if k = "JSONData".data then some (jsonOf g)
  else none

/-- The `html` property: `self._template % formatDict`, over the active
template of the instance, the currently parsed graph `g`, and the observed
time-hash `h`. -/
def DotGraph.htmlW (w : PyWorld) (dg : DotGraph) (g : Graph) (h : Int) : Option Str :=
  subst (formatMap h g) (dg.activeTemplate w)

/-- Modelled from the spec: `IPython.core.display.HTML(data=...)._repr_html_()`
returns the wrapped data unchanged. -/
def displayHTMLRepr (data : Str) : Str := data

/-- The `render` method: wrap the html text and return its notebook string
representation. -/
def DotGraph.renderW (w : PyWorld) (dg : DotGraph) (g : Graph) (h : Int) : Option Str :=
  (dg.htmlW w g h).map displayHTMLRepr

/-- The error taxonomy of the spec: file access, parse, serialization,
formatting (`KeyError`/`ValueError` from `%`), and missing-argument errors.
An uncaught error terminates the process with non-zero status. -/
inductive PyErr where
  | fileAccess : PyErr
  | parseFail : PyErr
  | serialization : PyErr
  | keyErr : PyErr
  | argErr : PyErr
deriving DecidableEq

/-- The file system: a partial map from paths to contents. -/
abbrev FS := String → Option Str

/-- Writing (or creating) a file with the given contents. -/
def fsUpdate (fs : FS) (path : String) (contents : Str) : FS :=
  fun p => if p = path then some contents else fs p

/-- Modelled from the spec: `networkx.read_dot` — opening a missing file
fails with a file-access error; otherwise the external parser (abstracted as
the `parseDot` argument) runs on the contents. -/
def readDot (parseDot : Str → Except PyErr Graph) (fs : FS) (path : String) :
    Except PyErr Graph :=
  match fs path with
  | none => Except.error PyErr.fileAccess
  | some contents => parseDot contents

/-- Outcome of one command-line run: final file system, data written to
standard output, and the uncaught error (if any) that makes the process exit
with non-zero status. -/
structure MainResult where
  fs : FS
  stdoutData : Option Str
  exitErr : Option PyErr

/-- The `__main__` driver: `infile = sys.argv[1]`, `dg = DotGraph(infile)`;
with a third argument the output file is opened for writing — creating or
truncating it — before `dg.html` is evaluated, and the html text is written
on success; otherwise the html text goes to standard output. Any error
raised after the `open` leaves the truncated (empty) output file behind. -/
def runMain (parseDot : Str → Except PyErr Graph) (h : Int) (fs : FS)
    (argv : List String) : MainResult :=
  match argv.get? 1 with
  | none => ⟨fs, none, some PyErr.argErr⟩
  | some infile =>
    let dg := (DotGraph.init world0 infile none).1
    if 2 < argv.length then
      match argv.get? 2 with
      | none => ⟨fs, none, some PyErr.argErr⟩
      | some outfile =>
        let fs1 := fsUpdate fs outfile []
        match readDot parseDot fs1 infile with
        | Except.error e => ⟨fs1, none, some e⟩
        | Except.ok g =>
          match dg.htmlW world0 g h with
          | none => ⟨fs1, none, some PyErr.keyErr⟩
          | some htmlText => ⟨fsUpdate fs1 outfile htmlText, none, none⟩
    else
      match readDot parseDot fs infile with
      | Except.error e => ⟨fs, none, some e⟩
      | Except.ok g =>
        match dg.htmlW world0 g h with
        | none => ⟨fs, none, some PyErr.keyErr⟩
        | some htmlText => ⟨fs, some htmlText, none⟩

/-- A suffix is number-safe when it does not start with a decimal digit, so
a number parse that stops right before it stops at the right place; every
suffix the encoder produces after a value starts with `,`, `]`, `}` or is
empty. -/
def RestOk (rest : Str) : Prop := ∀ c, rest.head? = some c → c.isDigit = false

/-- Printable-ASCII characters: the fragment of the character set on which
the modelled encoder's escaping is limited to the quote and backslash
escapes that the modelled reader decodes. -/
def SafeChar (c : Char) : Prop := 32 ≤ c.toNat ∧ c.toNat ≤ 126

/-- A string of printable-ASCII characters. -/
def SafeStr (s : Str) : Prop := ∀ c ∈ s, SafeChar c

mutual

/-- JSON values whose strings are printable ASCII. -/
def SafeJson : Json → Prop
  | .null => True
  | .bool _ => True
  | .num _ => True
  | .str s => SafeStr s
  | .arr xs => SafeElems xs
  | .obj ms => SafeMembers ms

/-- All elements safe. -/
def SafeElems : List Json → Prop
  | [] => True
  | x :: xs => SafeJson x ∧ SafeElems xs

/-- All keys and values safe. -/
def SafeMembers : List (Str × Json) → Prop
  | [] => True
  | (k, v) :: ms => SafeStr k ∧ SafeJson v ∧ SafeMembers ms

end

/-- All attribute keys and values printable ASCII. -/
def SafeAttrs (a : Attrs) : Prop := ∀ kv ∈ a, SafeStr kv.1 ∧ SafeStr kv.2

/-- Graphs whose identifiers and attributes are printable ASCII — the
fragment of dot-file data on which the modelled encoder and reader are
exact inverses. -/
def SafeGraph (g : Graph) : Prop :=
  SafeAttrs g.graphAttrs ∧ (∀ nd ∈ g.nodes, SafeStr nd.1 ∧ SafeAttrs nd.2) ∧
    (∀ e ∈ g.edges, SafeAttrs e.2.2)

instance (c : Char) : Decidable (SafeChar c) := by
  unfold SafeChar
  infer_instance

instance (s : Str) : Decidable (SafeStr s) := by
  unfold SafeStr
  infer_instance

instance (a : Attrs) : Decidable (SafeAttrs a) := by
  unfold SafeAttrs
  infer_instance

instance (g : Graph) : Decidable (SafeGraph g) := by
  unfold SafeGraph
  infer_instance

instance (g : Graph) : Decidable g.WF := by
  unfold Graph.WF
  infer_instance

/-- A template token: a literal segment or a `%(key)s` placeholder. -/
inductive Tok where
  | lit : Str → Tok
  | key : Str → Tok

/-- The template text a token list denotes. -/
def assembleTpl : List Tok → Str
  | [] => []
  | Tok.lit s :: ts => s ++ assembleTpl ts
  | Tok.key k :: ts => '%' :: '(' :: (k ++ ')' :: 's' :: assembleTpl ts)

/-- A token substitutes cleanly under `f`: literal segments are free of `%`,
keys are free of `)` and present in the mapping. -/
def TokOk (f : Str → Option Str) : Tok → Prop
  | Tok.lit s => '%' ∉ s
  | Tok.key k => ')' ∉ k ∧ (f k).isSome

/-- The substituted text of a token list. -/
def substToks (f : Str → Option Str) : List Tok → Str
  | [] => []
  | Tok.lit s :: ts => s ++ substToks f ts
  | Tok.key k :: ts => (f k).getD [] ++ substToks f ts

/-- The default template as a token list. -/
def defaultToks : List Tok :=
  [Tok.lit tplA, Tok.key "uniqueID".data, Tok.lit tplB, Tok.key "JSONData".data,
   Tok.lit tplC, Tok.key "uniqueID".data, Tok.lit tplD, Tok.key "uniqueID".data,
   Tok.lit tplE]

/-- Substring occurrence: `needle` occurs verbatim inside `hay`. -/
def occursIn (needle hay : Str) : Prop := ∃ p q, hay = p ++ needle ++ q

/-- The spec's example graph: `digraph { A -> B; B -> C; }` with `label`
attributes as `read_dot` records them. -/
def exGraph : Graph where
  directed := true
  multigraph := true
  graphAttrs := []
  nodes :=
    [("A".data, [("label".data, "A".data)]),
     ("B".data, [("label".data, "B".data)]),
     ("C".data, [("label".data, "C".data)])]
  edges := [("A".data, "B".data, []), ("B".data, "C".data, [])]

/-- A concrete stand-in for the external dot parser in closed command-line
runs: always succeeds, so any failure comes from the file system. -/
def exParse : Str → Except PyErr Graph := fun _ => Except.ok exGraph

/-- A concrete custom template containing only the two supported
placeholders, as a token list. -/
def exToks : List Tok :=
  [Tok.lit "<div id=\"".data, Tok.key "uniqueID".data, Tok.lit "\">".data,
   Tok.key "JSONData".data, Tok.lit "</div>".data]

/-- The empty file system: no path exists. -/
def emptyFS : FS := fun _ => none

/-! ## Substitution lemmas -/

theorem splitKey_append {key : Str} (hk : ')' ∉ key) (r : Str) :
    splitKey (key ++ ')' :: r) = some (key, r) := by
  induction key with
  | nil => simp [splitKey]
  | cons c cs ih =>
    have hc : c ≠ ')' := fun e => hk (e ▸ List.mem_cons_self c cs)
    have hcs : ')' ∉ cs := fun h => hk (List.mem_cons_of_mem _ h)
    simp [splitKey, hc, ih hcs]

theorem splitKey_shape :
    ∀ {cs k r : Str}, splitKey cs = some (k, r) → cs = k ++ ')' :: r := by
  intro cs
  induction cs with
  | nil => intro k r h; simp [splitKey] at h
  | cons c cs ih =>
    intro k r h
    by_cases hc : c = ')'
    · subst hc
      simp [splitKey] at h
      obtain ⟨hk, hr⟩ := h
      simp [← hk, ← hr]
    · simp only [splitKey, if_neg hc] at h
      cases hsk : splitKey cs with
      | none => rw [hsk] at h; exact absurd h (by simp)
      | some p =>
        obtain ⟨k', r'⟩ := p
        rw [hsk] at h
        simp only [Option.some.injEq, Prod.mk.injEq] at h
        obtain ⟨hk, hr⟩ := h
        rw [← hk, ← hr]
        simp [ih hsk]

theorem substAux_fuel (f : Str → Option Str) :
    ∀ n cs fuel₁ fuel₂, cs.length ≤ n → cs.length < fuel₁ → cs.length < fuel₂ →
      substAux f fuel₁ cs = substAux f fuel₂ cs := by
  intro n
  induction n with
  | zero =>
    intro cs fuel₁ fuel₂ hn h₁ h₂
    have hcs : cs = [] := List.length_eq_zero.mp (Nat.le_antisymm hn (Nat.zero_le _))
    subst hcs
    obtain ⟨g₁, rfl⟩ := Nat.exists_eq_succ_of_ne_zero (Nat.pos_iff_ne_zero.mp h₁)
    obtain ⟨g₂, rfl⟩ := Nat.exists_eq_succ_of_ne_zero (Nat.pos_iff_ne_zero.mp h₂)
    rfl
  | succ n ih =>
    intro cs fuel₁ fuel₂ hn h₁ h₂
    obtain ⟨g₁, rfl⟩ := Nat.exists_eq_succ_of_ne_zero
      (Nat.pos_iff_ne_zero.mp (Nat.lt_of_le_of_lt (Nat.zero_le _) h₁))
    obtain ⟨g₂, rfl⟩ := Nat.exists_eq_succ_of_ne_zero
      (Nat.pos_iff_ne_zero.mp (Nat.lt_of_le_of_lt (Nat.zero_le _) h₂))
    cases cs with
    | nil => rfl
    | cons c cs =>
      simp only [List.length_cons] at hn h₁ h₂
      by_cases hc : c = '%'
      · subst hc
        cases cs with
        | nil => simp [substAux]
        | cons c' cs' =>
          simp only [List.length_cons] at hn h₁ h₂
          by_cases hp : c' = '('
          · subst hp
            simp only [substAux, if_pos rfl]
            cases hsk : splitKey cs' with
            | none => rfl
            | some p =>
              obtain ⟨key, rest⟩ := p
              have hshape := splitKey_shape hsk
              cases rest with
              | nil => rfl
              | cons c'' rest' =>
                by_cases hs : c'' = 's'
                · subst hs
                  have hlen : rest'.length < cs'.length := by
                    subst hshape
                    simp only [List.length_append, List.length_cons]
                    omega
                  have hrw := ih rest' g₁ g₂ (by omega) (by omega) (by omega)
                  simp [hrw]
                · simp [if_neg hs]
          · by_cases hq : c' = '%'
            · subst hq
              have hrw := ih cs' g₁ g₂ (by omega) (by omega) (by omega)
              simp [substAux, if_neg hp, hrw]
            · simp [substAux, if_neg hp, if_neg hq]
      · simp only [substAux, if_neg hc]
        rw [ih cs g₁ g₂ (by omega) (by omega) (by omega)]

theorem substAux_eq_subst (f : Str → Option Str) {cs : Str} {fuel : Nat}
    (h : cs.length < fuel) : substAux f fuel cs = subst f cs :=
  substAux_fuel f cs.length cs fuel (cs.length + 1) le_rfl h (Nat.lt_succ_self _)

theorem subst_cons_lit (f : Str → Option Str) {c : Char} (hc : c ≠ '%') (cs : Str) :
    subst f (c :: cs) = (subst f cs).map fun t => c :: t := by
  simp only [subst, List.length_cons]
  simp only [substAux, if_neg hc]
  cases h : substAux f (cs.length + 1) cs <;> simp [h]

theorem subst_append_lit (f : Str → Option Str) {lit : Str} (hl : '%' ∉ lit) (rest : Str) :
    subst f (lit ++ rest) = (subst f rest).map fun t => lit ++ t := by
  induction lit with
  | nil => cases h : subst f rest <;> simp [h]
  | cons c cs ih =>
    have hc : c ≠ '%' := fun e => hl (e ▸ List.mem_cons_self c cs)
    have hcs : '%' ∉ cs := fun hm => hl (List.mem_cons_of_mem _ hm)
    rw [List.cons_append, subst_cons_lit f hc, ih hcs]
    cases h : subst f rest <;> simp

theorem subst_key (f : Str → Option Str) {key : Str} (hk : ')' ∉ key) (rest : Str) :
    subst f ('%' :: '(' :: (key ++ ')' :: 's' :: rest)) =
      match f key with
      | none => none
      | some v => (subst f rest).map fun t => v ++ t := by
  simp only [subst, List.length_cons, List.length_append]
  simp only [substAux, if_pos rfl, splitKey_append hk]
  rw [substAux_fuel f rest.length rest _ (rest.length + 1) le_rfl (by omega)
    (Nat.lt_succ_self _)]
  cases f key with
  | none => simp
  | some v => cases h : substAux f (rest.length + 1) rest <;> simp [h]

theorem subst_assemble (f : Str → Option Str) :
    ∀ toks : List Tok, (∀ t ∈ toks, TokOk f t) →
      subst f (assembleTpl toks) = some (substToks f toks) := by
  intro toks
  induction toks with
  | nil => intro _; rfl
  | cons t ts ih =>
    intro hall
    have ht := hall t (List.mem_cons_self _ _)
    have hts := fun x hx => hall x (List.mem_cons_of_mem _ hx)
    cases t with
    | lit s =>
      simp only [assembleTpl, substToks]
      rw [subst_append_lit f ht, ih hts]
      rfl
    | key k =>
      obtain ⟨hk, hsome⟩ := ht
      obtain ⟨v, hv⟩ := Option.isSome_iff_exists.mp hsome
      simp only [assembleTpl, substToks]
      rw [subst_key f hk, hv, ih hts]
      simp [hv]

theorem defaultTemplate_toks : assembleTpl defaultToks = defaultTemplate := by
  simp [assembleTpl, defaultToks, defaultTemplate, placeholderU, placeholderJ]

theorem formatMap_uniqueID (h : Int) (g : Graph) :
    formatMap h g ['u', 'n', 'i', 'q', 'u', 'e', 'I', 'D'] = some (uniqueID h) := rfl

theorem formatMap_JSONData (h : Int) (g : Graph) :
    formatMap h g ['J', 'S', 'O', 'N', 'D', 'a', 't', 'a'] = some (jsonOf g) := rfl

theorem htmlW_toks (w : PyWorld) (dg : DotGraph) (g : Graph) (h : Int) (toks : List Tok)
    (htpl : dg.activeTemplate w = assembleTpl toks)
    (hok : ∀ t ∈ toks, TokOk (formatMap h g) t) :
    dg.htmlW w g h = some (substToks (formatMap h g) toks) := by
  rw [DotGraph.htmlW, htpl, subst_assemble _ _ hok]

set_option maxRecDepth 10000 in
theorem defaultToks_ok (h : Int) (g : Graph) :
    ∀ t ∈ defaultToks, TokOk (formatMap h g) t := by
  intro t ht
  simp only [defaultToks, List.mem_cons, List.not_mem_nil, or_false] at ht
  rcases ht with rfl | rfl | rfl | rfl | rfl | rfl | rfl | rfl | rfl
  · exact (by decide : '%' ∉ tplA)
  · exact ⟨(by decide : ')' ∉ "uniqueID".data), rfl⟩
  · exact (by decide : '%' ∉ tplB)
  · exact ⟨(by decide : ')' ∉ "JSONData".data), rfl⟩
  · exact (by decide : '%' ∉ tplC)
  · exact ⟨(by decide : ')' ∉ "uniqueID".data), rfl⟩
  · exact (by decide : '%' ∉ tplD)
  · exact ⟨(by decide : ')' ∉ "uniqueID".data), rfl⟩
  · exact (by decide : '%' ∉ tplE)

theorem html_default_eq (inf : String) (je : Option JSONEncoder) (g : Graph) (h : Int) :
    DotGraph.htmlW world0 ⟨inf, none, je⟩ g h =
      some (tplA ++ uniqueID h ++ tplB ++ jsonOf g ++ tplC ++ uniqueID h ++
        tplD ++ uniqueID h ++ tplE) := by
  have htpl : DotGraph.activeTemplate world0 ⟨inf, none, je⟩ = assembleTpl defaultToks := by
    simp [DotGraph.activeTemplate, world0, defaultTemplate_toks]
  rw [htmlW_toks _ _ _ _ _ htpl (defaultToks_ok h g)]
  simp only [substToks, defaultToks, formatMap_uniqueID, formatMap_JSONData,
    Option.getD_some, List.append_nil]
  simp [List.append_assoc]

/-! ## Decimal printing and parsing -/

theorem digitChar_toNat {d : Nat} (hd : d < 10) : (digitChar d).toNat = 48 + d := by
  interval_cases d <;> decide

theorem digitChar_isDigit {d : Nat} (hd : d < 10) : (digitChar d).isDigit = true := by
  interval_cases d <;> decide

theorem digitChar_ne {d : Nat} (hd : d < 10) {c : Char}
    (hc : c.toNat < 48 ∨ 57 < c.toNat) : digitChar d ≠ c := by
  intro e
  have h1 := congrArg Char.toNat e
  rw [digitChar_toNat hd] at h1
  omega

theorem natReprAux_eq : ∀ n fuel, n < fuel → natReprAux fuel n = natReprL n := by
  intro n
  induction n using Nat.strong_induction_on with
  | _ n ih =>
    intro fuel hf
    obtain ⟨f, rfl⟩ := Nat.exists_eq_succ_of_ne_zero (by omega : fuel ≠ 0)
    by_cases h10 : n < 10
    · simp [natReprAux, natReprL, h10]
    · have hdiv : n / 10 < n := Nat.div_lt_self (by omega) (by omega)
      simp only [natReprL, natReprAux, if_neg h10]
      rw [ih (n / 10) hdiv f (by omega), ih (n / 10) hdiv n (by omega)]

theorem natReprL_eq (n : Nat) :
    natReprL n =
      if n < 10 then [digitChar n] else natReprL (n / 10) ++ [digitChar (n % 10)] := by
  by_cases h10 : n < 10
  · simp [natReprL, natReprAux, h10]
  · rw [if_neg h10, show natReprL n = natReprAux (n + 1) n from rfl,
      show natReprAux (n + 1) n = natReprAux n (n / 10) ++ [digitChar (n % 10)] from by
        simp [natReprAux, h10],
      natReprAux_eq (n / 10) n (by omega)]

theorem natReprL_cons (n : Nat) : ∃ d ds, natReprL n = digitChar d :: ds ∧ d < 10 := by
  induction n using Nat.strong_induction_on with
  | _ n ih =>
    rw [natReprL_eq]
    by_cases h10 : n < 10
    · exact ⟨n, [], by simp [h10], h10⟩
    · have hdiv : n / 10 < n := Nat.div_lt_self (by omega) (by omega)
      obtain ⟨d, ds, hds, hd⟩ := ih (n / 10) hdiv
      exact ⟨d, ds ++ [digitChar (n % 10)], by simp [h10, hds], hd⟩

theorem parseDigits_stop {rest : Str} (hr : RestOk rest) (acc : Nat) :
    parseDigits acc rest = (acc, rest) := by
  cases rest with
  | nil => rfl
  | cons c cs =>
    have hc := hr c rfl
    simp [parseDigits, hc]

theorem parseDigits_append :
    ∀ n acc rest, parseDigits acc (natReprL n ++ rest) =
      parseDigits (acc * 10 ^ (natReprL n).length + n) rest := by
  intro n
  induction n using Nat.strong_induction_on with
  | _ n ih =>
    intro acc rest
    by_cases h10 : n < 10
    · rw [natReprL_eq, if_pos h10]
      simp [parseDigits, digitChar_isDigit h10, digitChar_toNat h10]
    · have hdiv : n / 10 < n := Nat.div_lt_self (by omega) (by omega)
      have hmod : n % 10 < 10 := Nat.mod_lt _ (by omega)
      have hLen : (natReprL n).length = (natReprL (n / 10)).length + 1 := by
        rw [natReprL_eq, if_neg h10]
        simp
      rw [hLen, natReprL_eq, if_neg h10, List.append_assoc,
        ih (n / 10) hdiv acc ([digitChar (n % 10)] ++ rest)]
      simp only [List.singleton_append, parseDigits, digitChar_isDigit hmod,
        digitChar_toNat hmod, if_pos]
      congr 1
      have he : 48 + n % 10 - 48 = n % 10 := by omega
      rw [he]
      calc (acc * 10 ^ (natReprL (n / 10)).length + n / 10) * 10 + n % 10
          = acc * (10 ^ (natReprL (n / 10)).length * 10) + (10 * (n / 10) + n % 10) := by
            ring
        _ = acc * 10 ^ ((natReprL (n / 10)).length + 1) + n := by
            rw [pow_succ, Nat.div_add_mod]

theorem restOk_nil : RestOk [] := by
  intro c hc
  simp at hc

theorem restOk_head {c : Char} (h : c.isDigit = false) (r : Str) : RestOk (c :: r) := by
  intro d hd
  rw [List.head?_cons] at hd
  injection hd with h'
  exact h' ▸ h

theorem parseDigits_natReprL {n : Nat} {rest : Str} (hr : RestOk rest) :
    parseDigits 0 (natReprL n ++ rest) = (n, rest) := by
  rw [parseDigits_append, parseDigits_stop hr]
  simp

theorem natReprL_inj {a b : Nat} (h : natReprL a = natReprL b) : a = b := by
  have ha : parseDigits 0 (natReprL a ++ []) = (a, []) := parseDigits_natReprL restOk_nil
  have hb : parseDigits 0 (natReprL b ++ []) = (b, []) := parseDigits_natReprL restOk_nil
  rw [h, hb] at ha
  exact (Prod.mk.injEq _ _ _ _ ▸ ha).1.symm

/-! ## String escaping round trip -/

theorem escChar_safe {c : Char} (hc : SafeChar c) (hq : c ≠ '"') (hb : c ≠ '\\') :
    escChar c = [c] := by
  obtain ⟨h1, h2⟩ := hc
  have hn : c ≠ '\n' := fun e => by subst e; exact absurd h1 (by decide)
  have hr : c ≠ '\r' := fun e => by subst e; exact absurd h1 (by decide)
  have ht : c ≠ '\t' := fun e => by subst e; exact absurd h1 (by decide)
  simp only [escChar, if_neg hq, if_neg hb, if_neg hn, if_neg hr, if_neg ht,
    if_neg (by omega : ¬c.toNat = 8), if_neg (by omega : ¬c.toNat = 12),
    if_neg (by omega : ¬(c.toNat < 32 ∨ 127 ≤ c.toNat))]

theorem parseStrTail_cons_plain {c : Char} (hq : c ≠ '"') (hb : c ≠ '\\') (X : Str) :
    parseStrTail (c :: X) =
      match parseStrTail X with
      | none => none
      | some (s, r) => some (c :: s, r) := by
  rw [parseStrTail.eq_def]
  simp [hq, hb]

theorem parseStrTail_escape :
    ∀ {s : Str}, SafeStr s → ∀ rest, parseStrTail (escStr s ++ '"' :: rest) = some (s, rest) := by
  intro s
  induction s with
  | nil =>
    intro _ rest
    show parseStrTail ('"' :: rest) = some ([], rest)
    rw [parseStrTail.eq_def]
    simp
  | cons c cs ih =>
    intro hs rest
    have hc : SafeChar c := hs c (List.mem_cons_self c cs)
    have hcs : SafeStr cs := fun x hx => hs x (List.mem_cons_of_mem _ hx)
    by_cases hq : c = '"'
    · subst hq
      have hesc : escChar '"' = ['\\', '"'] := by decide
      simp only [escStr, hesc, List.cons_append, List.append_assoc]
      rw [parseStrTail.eq_def]
      simp [unescapeChar, ih hcs rest]
    · by_cases hb : c = '\\'
      · subst hb
        have hesc : escChar '\\' = ['\\', '\\'] := by decide
        simp only [escStr, hesc, List.cons_append, List.append_assoc]
        rw [parseStrTail.eq_def]
        simp [unescapeChar, ih hcs rest]
      · simp only [escStr, escChar_safe hc hq hb, List.cons_append, List.append_assoc,
          List.nil_append]
        rw [parseStrTail_cons_plain hq hb, ih hcs rest]

/-! ## Heads of encoded values -/

theorem encL_head (j : Json) : ∃ c cs, encL j = c :: cs ∧ c ≠ ']' := by
  cases j with
  | null => exact ⟨'n', _, rfl, by decide⟩
  | bool b =>
    cases b
    · exact ⟨'f', _, rfl, by decide⟩
    · exact ⟨'t', _, rfl, by decide⟩
  | num n =>
    obtain ⟨d, ds, hds, hd⟩ := natReprL_cons n
    exact ⟨digitChar d, ds, by simp [encL, hds], digitChar_ne hd (by decide)⟩
  | str s => exact ⟨'"', _, rfl, by decide⟩
  | arr xs =>
    cases xs
    · exact ⟨'[', _, rfl, by decide⟩
    · exact ⟨'[', _, rfl, by decide⟩
  | obj ms =>
    cases ms
    · exact ⟨'\x7b', _, rfl, by decide⟩
    · exact ⟨'\x7b', _, rfl, by decide⟩

theorem restOk_encTail (xs : List Json) (rest : Str) :
    RestOk (encTail xs ++ ']' :: rest) := by
  cases xs with
  | nil => exact restOk_head (by decide) rest
  | cons y ys =>
    simp only [encTail, List.cons_append]
    exact restOk_head (by decide) _

theorem restOk_encMTail (ms : List (Str × Json)) (rest : Str) :
    RestOk (encMTail ms ++ '\x7d' :: rest) := by
  cases ms with
  | nil => exact restOk_head (by decide) rest
  | cons m ms' =>
    simp only [encMTail, List.cons_append]
    exact restOk_head (by decide) _

/-! ## The encoder/reader round trip -/

theorem jsize_pos (j : Json) : 1 ≤ jsize j := by
  cases j with
  | null => exact le_refl 1
  | bool b => exact le_refl 1
  | num n => exact le_refl 1
  | str s => exact le_refl 1
  | arr xs =>
    cases xs with
    | nil => exact le_refl 1
    | cons x xs => show 1 ≤ 1 + jsize x + jsizeElems xs; omega
  | obj ms =>
    cases ms with
    | nil => exact le_refl 1
    | cons m ms =>
      obtain ⟨k, v⟩ := m
      show 1 ≤ 1 + jsize v + jsizeMembers ms
      omega

theorem jsizeElems_pos (xs : List Json) : 1 ≤ jsizeElems xs := by
  cases xs with
  | nil => exact le_refl 1
  | cons y ys => show 1 ≤ 1 + jsize y + jsizeElems ys; omega

theorem jsizeMembers_pos (ms : List (Str × Json)) : 1 ≤ jsizeMembers ms := by
  cases ms with
  | nil => exact le_refl 1
  | cons m ms =>
    obtain ⟨k, v⟩ := m
    show 1 ≤ 1 + jsize v + jsizeMembers ms
    omega

theorem parsers_roundtrip : ∀ fuel : Nat,
    (∀ j, SafeJson j → jsize j ≤ fuel → ∀ rest, RestOk rest →
      parseVal fuel (encL j ++ rest) = some (j, rest)) ∧
    (∀ xs, SafeElems xs → jsizeElems xs ≤ fuel → ∀ rest,
      parseElems fuel (encTail xs ++ ']' :: rest) = some (xs, rest)) ∧
    (∀ ms, SafeMembers ms → jsizeMembers ms ≤ fuel → ∀ rest,
      parseMembers fuel (encMTail ms ++ '\x7d' :: rest) = some (ms, rest)) := by
  intro fuel
  induction fuel using Nat.strong_induction_on with
  | _ fuel ih =>
    refine ⟨fun j hsafe hsz rest hrest => ?_, fun xs hsafe hsz rest => ?_,
      fun ms hsafe hsz rest => ?_⟩
    · obtain ⟨f, rfl⟩ : ∃ f, fuel = f + 1 := ⟨fuel - 1, by have := jsize_pos j; omega⟩
      cases j with
      | null =>
        simp only [encL]
        simp [parseVal, parsers]
      | bool b =>
        cases b <;> simp only [encL] <;> simp [parseVal, parsers]
      | num n =>
        obtain ⟨d, ds, hds, hd⟩ := natReprL_cons n
        have hne1 : digitChar d ≠ '"' := digitChar_ne hd (by decide)
        have hne2 : digitChar d ≠ '[' := digitChar_ne hd (by decide)
        have hne3 : digitChar d ≠ '\x7b' := digitChar_ne hd (by decide)
        have hne4 : digitChar d ≠ 'n' := digitChar_ne hd (by decide)
        have hne5 : digitChar d ≠ 't' := digitChar_ne hd (by decide)
        have hne6 : digitChar d ≠ 'f' := digitChar_ne hd (by decide)
        have hdig := digitChar_isDigit hd
        have ht : (digitChar d).toNat - 48 = d := by rw [digitChar_toNat hd]; omega
        have hPD : parseDigits 0 (natReprL n ++ rest) = (n, rest) := parseDigits_natReprL hrest
        rw [hds] at hPD
        simp only [List.cons_append] at hPD
        rw [show parseDigits 0 (digitChar d :: (ds ++ rest)) = parseDigits d (ds ++ rest) from by
          simp [parseDigits, hdig, ht]] at hPD
        simp only [encL, hds, List.cons_append]
        simp [parseVal, parsers, hne1, hne2, hne3, hne4, hne5, hne6, hdig, ht, hPD]
      | str s =>
        have hss : SafeStr s := hsafe
        simp only [encL, List.cons_append, List.append_assoc, List.singleton_append]
        simp [parseVal, parsers, parseStrTail_escape hss rest]
      | arr xs =>
        cases xs with
        | nil =>
          simp only [encL]
          simp [parseVal, parsers]
        | cons x xs =>
          have hx : SafeJson x := hsafe.1
          have hxs : SafeElems xs := hsafe.2
          have hszx : jsize (Json.arr (x :: xs)) = 1 + jsize x + jsizeElems xs := rfl
          obtain ⟨c, cs, hcs, hcne⟩ := encL_head x
          have hrec1 := (ih f (by omega)).1 x hx (by rw [hszx] at hsz; omega)
            (encTail xs ++ ']' :: rest) (restOk_encTail xs rest)
          have hrec2 := (ih f (by omega)).2.1 xs hxs (by rw [hszx] at hsz; omega) rest
          have hhead : (encL x ++ (encTail xs ++ ']' :: rest)).head? = some c := by
            rw [hcs]
            rfl
          simp only [parseVal] at hrec1
          simp only [parseElems] at hrec2
          simp only [encL, List.cons_append, List.append_assoc, List.singleton_append]
          simp [parseVal, parsers, hhead, hcne, hrec1, hrec2]
      | obj ms =>
        cases ms with
        | nil =>
          simp only [encL]
          simp [parseVal, parsers]
        | cons m ms' =>
          obtain ⟨k, v⟩ := m
          have hk : SafeStr k := hsafe.1
          have hv : SafeJson v := hsafe.2.1
          have hms : SafeMembers ms' := hsafe.2.2
          have hszx : jsize (Json.obj ((k, v) :: ms')) = 1 + jsize v + jsizeMembers ms' := rfl
          have hrecv := (ih f (by omega)).1 v hv (by rw [hszx] at hsz; omega)
            (encMTail ms' ++ '\x7d' :: rest) (restOk_encMTail ms' rest)
          have hrecm := (ih f (by omega)).2.2 ms' hms (by rw [hszx] at hsz; omega) rest
          have hstr := parseStrTail_escape hk
            (':' :: ' ' :: (encL v ++ (encMTail ms' ++ '\x7d' :: rest)))
          simp only [parseVal] at hrecv
          simp only [parseMembers] at hrecm
          simp only [encL, encMember, List.cons_append, List.append_assoc,
            List.singleton_append]
          simp [parseVal, parsers, hstr, hrecv, hrecm]
    · obtain ⟨f, rfl⟩ : ∃ f, fuel = f + 1 := ⟨fuel - 1, by have := jsizeElems_pos xs; omega⟩
      cases xs with
      | nil =>
        simp only [encTail, List.nil_append]
        simp [parseElems, parsers]
      | cons y ys =>
        have hy : SafeJson y := hsafe.1
        have hys : SafeElems ys := hsafe.2
        have hsz' : jsizeElems (y :: ys) = 1 + jsize y + jsizeElems ys := rfl
        have hrec1 := (ih f (by omega)).1 y hy (by rw [hsz'] at hsz; omega)
          (encTail ys ++ ']' :: rest) (restOk_encTail ys rest)
        have hrec2 := (ih f (by omega)).2.1 ys hys (by rw [hsz'] at hsz; omega) rest
        simp only [parseVal] at hrec1
        simp only [parseElems] at hrec2
        simp only [encTail, List.cons_append, List.append_assoc]
        simp [parseElems, parsers, hrec1, hrec2]
    · obtain ⟨f, rfl⟩ : ∃ f, fuel = f + 1 :=
        ⟨fuel - 1, by have := jsizeMembers_pos ms; omega⟩
      cases ms with
      | nil =>
        simp only [encMTail, List.nil_append]
        simp [parseMembers, parsers]
      | cons m ms' =>
        obtain ⟨k, v⟩ := m
        have hk : SafeStr k := hsafe.1
        have hv : SafeJson v := hsafe.2.1
        have hms : SafeMembers ms' := hsafe.2.2
        have hsz' : jsizeMembers ((k, v) :: ms') = 1 + jsize v + jsizeMembers ms' := rfl
        have hrecv := (ih f (by omega)).1 v hv (by rw [hsz'] at hsz; omega)
          (encMTail ms' ++ '\x7d' :: rest) (restOk_encMTail ms' rest)
        have hrecm := (ih f (by omega)).2.2 ms' hms (by rw [hsz'] at hsz; omega) rest
        have hstr := parseStrTail_escape hk
          (':' :: ' ' :: (encL v ++ (encMTail ms' ++ '\x7d' :: rest)))
        simp only [parseVal] at hrecv
        simp only [parseMembers] at hrecm
        simp only [encMTail, encMember, List.cons_append, List.append_assoc,
          List.singleton_append]
        simp [parseMembers, parsers, hstr, hrecv, hrecm]

theorem jsize_le_encL : ∀ n : Nat,
    (∀ j, jsize j ≤ n → jsize j ≤ (encL j).length + 1) ∧
    (∀ xs, jsizeElems xs ≤ n → jsizeElems xs ≤ (encTail xs).length + 1) ∧
    (∀ ms, jsizeMembers ms ≤ n → jsizeMembers ms ≤ (encMTail ms).length + 1) := by
  intro n
  induction n using Nat.strong_induction_on with
  | _ n ih =>
    refine ⟨fun j hj => ?_, fun xs hxs => ?_, fun ms hms => ?_⟩
    · cases j with
      | null => simp [jsize, encL]
      | bool b => cases b <;> simp [jsize, encL]
      | num m => show 1 ≤ _; omega
      | str s => show 1 ≤ _; omega
      | arr xs =>
        cases xs with
        | nil => show 1 ≤ _; omega
        | cons x xs =>
          obtain ⟨m, rfl⟩ : ∃ m, n = m + 1 := ⟨n - 1, by have := jsize_pos (Json.arr (x :: xs)); omega⟩
          have hsz : jsize (Json.arr (x :: xs)) = 1 + jsize x + jsizeElems xs := rfl
          have h1 := (ih m (by omega)).1 x (by rw [hsz] at hj; omega)
          have h2 := (ih m (by omega)).2.1 xs (by rw [hsz] at hj; omega)
          rw [hsz]
          show _ ≤ ('[' :: (encL x ++ encTail xs ++ [']'])).length + 1
          simp only [List.length_cons, List.length_append]
          omega
      | obj ms =>
        cases ms with
        | nil => show 1 ≤ _; omega
        | cons m' ms' =>
          obtain ⟨k, v⟩ := m'
          obtain ⟨m, rfl⟩ : ∃ m, n = m + 1 :=
            ⟨n - 1, by have := jsize_pos (Json.obj ((k, v) :: ms')); omega⟩
          have hsz : jsize (Json.obj ((k, v) :: ms')) = 1 + jsize v + jsizeMembers ms' := rfl
          have h1 := (ih m (by omega)).1 v (by rw [hsz] at hj; omega)
          have h2 := (ih m (by omega)).2.2 ms' (by rw [hsz] at hj; omega)
          rw [hsz]
          show _ ≤ ('\x7b' :: (encMember (k, v) ++ encMTail ms' ++ ['\x7d'])).length + 1
          simp only [List.length_cons, List.length_append, encMember]
          omega
    · cases xs with
      | nil => show 1 ≤ _; omega
      | cons y ys =>
        obtain ⟨m, rfl⟩ : ∃ m, n = m + 1 := ⟨n - 1, by have := jsizeElems_pos (y :: ys); omega⟩
        have hsz : jsizeElems (y :: ys) = 1 + jsize y + jsizeElems ys := rfl
        have h1 := (ih m (by omega)).1 y (by rw [hsz] at hxs; omega)
        have h2 := (ih m (by omega)).2.1 ys (by rw [hsz] at hxs; omega)
        rw [hsz]
        show _ ≤ (',' :: ' ' :: (encL y ++ encTail ys)).length + 1
        simp only [List.length_cons, List.length_append]
        omega
    · cases ms with
      | nil => show 1 ≤ _; omega
      | cons m' ms' =>
        obtain ⟨k, v⟩ := m'
        obtain ⟨m, rfl⟩ : ∃ m, n = m + 1 :=
          ⟨n - 1, by have := jsizeMembers_pos ((k, v) :: ms'); omega⟩
        have hsz : jsizeMembers ((k, v) :: ms') = 1 + jsize v + jsizeMembers ms' := rfl
        have h1 := (ih m (by omega)).1 v (by rw [hsz] at hms; omega)
        have h2 := (ih m (by omega)).2.2 ms' (by rw [hsz] at hms; omega)
        rw [hsz]
        show _ ≤ (',' :: ' ' :: (encMember (k, v) ++ encMTail ms')).length + 1
        simp only [List.length_cons, List.length_append, encMember]
        omega

theorem jparse_encL {j : Json} (hs : SafeJson j) : jparse (encL j) = some j := by
  have hsz : jsize j ≤ (encL j).length + 1 := (jsize_le_encL (jsize j)).1 j le_rfl
  have hm := (parsers_roundtrip ((encL j).length + 1)).1 j hs hsz [] restOk_nil
  rw [List.append_nil] at hm
  simp [jparse, hm]

/-! ## Safety of the node-link JSON value -/

theorem safeMembers_append {ms₁ ms₂ : List (Str × Json)}
    (h₁ : SafeMembers ms₁) (h₂ : SafeMembers ms₂) : SafeMembers (ms₁ ++ ms₂) := by
  induction ms₁ with
  | nil => exact h₂
  | cons m ms ih =>
    obtain ⟨k, v⟩ := m
    exact ⟨h₁.1, h₁.2.1, ih h₁.2.2⟩

theorem safeMembers_attrsJson {a : Attrs} (ha : SafeAttrs a) : SafeMembers (attrsJson a) := by
  induction a with
  | nil => trivial
  | cons kv a ih =>
    have h := ha kv (List.mem_cons_self kv a)
    exact ⟨h.1, h.2, ih fun x hx => ha x (List.mem_cons_of_mem _ hx)⟩

theorem safeElems_map {α : Type} (f : α → Json) (l : List α)
    (h : ∀ x ∈ l, SafeJson (f x)) : SafeElems (l.map f) := by
  induction l with
  | nil => trivial
  | cons x xs ih =>
    exact ⟨h x (List.mem_cons_self x xs), ih fun y hy => h y (List.mem_cons_of_mem _ hy)⟩

theorem safeJson_jsonValOf {g : Graph} (hg : SafeGraph g) : SafeJson (jsonValOf g) := by
  obtain ⟨hga, hn, he⟩ := hg
  refine ⟨by decide, trivial, by decide, trivial, by decide, safeMembers_attrsJson hga,
    by decide, ?_, by decide, ?_, trivial⟩
  · apply safeElems_map
    intro x hx
    rw [show (node_link_data g).nodes = g.nodes.map (fun nd => NLNode.mk nd.2 nd.1) from rfl]
      at hx
    obtain ⟨nd, hnd, rfl⟩ := List.mem_map.mp hx
    have hnd' := hn nd hnd
    show SafeMembers (attrsJson nd.2 ++ [("id".data, Json.str nd.1)])
    exact safeMembers_append (safeMembers_attrsJson hnd'.2) ⟨by decide, hnd'.1, trivial⟩
  · apply safeElems_map
    intro x hx
    rw [show (node_link_data g).links =
      g.edges.map (fun e => NLLink.mk e.2.2 (g.ids.indexOf e.1) (g.ids.indexOf e.2.1))
      from rfl] at hx
    obtain ⟨e, hee, rfl⟩ := List.mem_map.mp hx
    have he' := he e hee
    show SafeMembers (attrsJson e.2.2 ++
      [("source".data, Json.num (g.ids.indexOf e.1)),
       ("target".data, Json.num (g.ids.indexOf e.2.1))])
    exact safeMembers_append (safeMembers_attrsJson he')
      ⟨by decide, trivial, by decide, trivial, trivial⟩

/-! ## Helpers for the remaining claims -/

theorem runMain_missing_input (parseDot : Str → Except PyErr Graph) (h : Int) (fs : FS)
    (prog infile outfile : String) (hmiss : fs infile = none) (hne : infile ≠ outfile) :
    runMain parseDot h fs [prog, infile, outfile] =
      ⟨fsUpdate fs outfile [], none, some PyErr.fileAccess⟩ := by
  unfold runMain
  simp only [List.get?, List.length_cons, List.length_nil]
  rw [if_pos (by omega)]
  simp [readDot, fsUpdate, hne, hmiss]

theorem occursIn_length {needle hay : Str} (h : occursIn needle hay) :
    needle.length ≤ hay.length := by
  obtain ⟨p, q, rfl⟩ := h
  simp only [List.length_append]
  omega

theorem intReprL_inj {a b : Int} (h : intReprL a = intReprL b) : a = b := by
  cases a with
  | ofNat m =>
    cases b with
    | ofNat n =>
      simp only [intReprL] at h
      exact congrArg Int.ofNat (natReprL_inj h)
    | negSucc n =>
      exfalso
      simp only [intReprL] at h
      obtain ⟨d, ds, hds, hd⟩ := natReprL_cons m
      rw [hds] at h
      exact digitChar_ne hd (by decide) (List.head_eq_of_cons_eq h)
  | negSucc m =>
    cases b with
    | ofNat n =>
      exfalso
      simp only [intReprL] at h
      obtain ⟨d, ds, hds, hd⟩ := natReprL_cons n
      rw [hds] at h
      exact digitChar_ne hd (by decide) (List.head_eq_of_cons_eq h.symm)
    | negSucc n =>
      simp only [intReprL, List.cons.injEq, true_and] at h
      have hmn := natReprL_inj h
      exact congrArg Int.negSucc (by omega)

theorem uniqueID_inj {a b : Int} (h : uniqueID a = uniqueID b) : a = b := by
  unfold uniqueID at h
  exact intReprL_inj (List.append_cancel_left h)

theorem indexOf_lt_length_of_mem {α : Type} [BEq α] [LawfulBEq α] {a : α} {l : List α}
    (h : a ∈ l) : l.indexOf a < l.length := by
  induction l with
  | nil => simp at h
  | cons x xs ih =>
    rw [List.indexOf_cons]
    cases hx : x == a with
    | true => simp
    | false =>
      have hne : a ≠ x := fun e => by simp [e] at hx
      have hmem : a ∈ xs := by
        rcases List.mem_cons.mp h with rfl | hm
        · exact absurd rfl hne
        · exact hm
      simp only [cond_false]
      have := ih hmem
      simp only [List.length_cons]
      omega

/-! ## Claims -/

/-- C1 (amended): invoking the command-line form `program infile outfile` with
a nonexistent input file terminates with an uncaught file-access error (a
non-zero exit status), but the output path IS created: the driver opens the
output file for writing — creating or truncating it to an empty file —
before the HTML is computed, so the empty output file is left behind. -/
theorem claim_C1 (parseDot : Str → Except PyErr Graph) (t : Int) (fs : FS)
    (prog infile outfile : String) (hmiss : fs infile = none) (hne : infile ≠ outfile) :
    runMain parseDot t fs [prog, infile, outfile] =
      ⟨fsUpdate fs outfile [], none, some PyErr.fileAccess⟩ :=
  runMain_missing_input parseDot t fs prog infile outfile hmiss hne

/-- C1 witness: a concrete run on an empty file system. -/
theorem claim_C1_witness :
    emptyFS "in.dot" = none ∧ "in.dot" ≠ "out.html" ∧
    runMain exParse 0 emptyFS ["dotgraph.py", "in.dot", "out.html"] =
      ⟨fsUpdate emptyFS "out.html" [], none, some PyErr.fileAccess⟩ :=
  ⟨rfl, by decide,
    claim_C1 exParse 0 emptyFS "dotgraph.py" "in.dot" "out.html" rfl (by decide)⟩

/-- C1 counterexample to the claim as stated: on a missing input file the
process does exit non-zero, but the output path `out.html` — absent before
the run — exists afterwards as an empty file, so "no output file is
emitted" is false. -/
theorem claim_C1_cex :
    (runMain exParse 0 emptyFS ["dotgraph.py", "in.dot", "out.html"]).exitErr =
      some PyErr.fileAccess ∧
    (runMain exParse 0 emptyFS ["dotgraph.py", "in.dot", "out.html"]).fs "out.html" =
      some [] ∧
    emptyFS "out.html" = none := by
  have h := runMain_missing_input exParse 0 emptyFS "dotgraph.py" "in.dot" "out.html" rfl
    (by decide)
  rw [h]
  refine ⟨rfl, ?_, rfl⟩
  simp [fsUpdate]

/-- C2: for every parsed graph (over the printable-ASCII fragment on which
the modelled encoder and reader are exact), parsing the text of the `json`
property back as JSON yields exactly the JSON value of the node-link
mapping the `dict` property returns for the same input. -/
theorem claim_C2 (g : Graph) (hg : SafeGraph g) :
    jparse (jsonOf g) = some ((node_link_data g).toJson) :=
  jparse_encL (safeJson_jsonValOf hg)

set_option maxRecDepth 10000 in
/-- C2 witness: the round trip on the spec's example graph. -/
theorem claim_C2_witness :
    SafeGraph exGraph ∧ jparse (jsonOf exGraph) = some ((node_link_data exGraph).toJson) :=
  ⟨by decide, claim_C2 exGraph (by decide)⟩

/-- C3 (amended): for every instance rendering with the DEFAULT template,
the html text contains the exact JSON text of the `json` property verbatim
as a substring (it appears in the script block after `var graph = `). The
original claim quantified over every instance, including custom templates;
it fails for a template without the `%(JSONData)s` placeholder. -/
theorem claim_C3 (inf : String) (je : Option JSONEncoder) (g : Graph) (t : Int) (s : Str)
    (hs : DotGraph.htmlW world0 ⟨inf, none, je⟩ g t = some s) :
    occursIn (jsonOf g) s := by
  rw [html_default_eq] at hs
  injection hs with hs
  exact ⟨tplA ++ uniqueID t ++ tplB,
    tplC ++ uniqueID t ++ tplD ++ uniqueID t ++ tplE,
    by rw [← hs]; simp [List.append_assoc]⟩

/-- C3 witness: the default-template html of the example graph contains its
JSON text. -/
theorem claim_C3_witness :
    occursIn (jsonOf exGraph)
      (tplA ++ uniqueID 0 ++ tplB ++ jsonOf exGraph ++ tplC ++ uniqueID 0 ++
        tplD ++ uniqueID 0 ++ tplE) :=
  claim_C3 "in.dot" none exGraph 0 _ (html_default_eq "in.dot" none exGraph 0)

/-- C3 counterexample to the claim as stated over EVERY instance: an
instance constructed with the custom template `"x"` renders to `"x"`, which
does not contain the JSON text of the example graph. -/
theorem claim_C3_cex :
    DotGraph.htmlW world0 ⟨"in.dot", some ['x'], none⟩ exGraph 0 = some ['x'] ∧
    ¬ occursIn (jsonOf exGraph) ['x'] := by
  constructor
  · show subst (formatMap 0 exGraph) ['x'] = some ['x']
    rw [subst_cons_lit _ (by decide) []]
    rfl
  · intro hocc
    have hlen := occursIn_length hocc
    have hbig : 1 < (jsonOf exGraph).length := by decide
    simp at hlen
    omega

/-- C4 (amended): two html computations that observe DIFFERENT values of
`hash(time.time())` produce different `uniqueID` strings, and the embedded
`JSONData` text is the same `jsonOf g` in both outputs. The original claim —
that any two successive calls always differ — fails when the two calls
observe the same time-hash (the clock need not advance between calls). -/
theorem claim_C4 (inf : String) (je : Option JSONEncoder) (g : Graph) (h₁ h₂ : Int)
    (hne : h₁ ≠ h₂) :
    uniqueID h₁ ≠ uniqueID h₂ ∧
    DotGraph.htmlW world0 ⟨inf, none, je⟩ g h₁ =
      some (tplA ++ uniqueID h₁ ++ tplB ++ jsonOf g ++ tplC ++ uniqueID h₁ ++
        tplD ++ uniqueID h₁ ++ tplE) ∧
    DotGraph.htmlW world0 ⟨inf, none, je⟩ g h₂ =
      some (tplA ++ uniqueID h₂ ++ tplB ++ jsonOf g ++ tplC ++ uniqueID h₂ ++
        tplD ++ uniqueID h₂ ++ tplE) :=
  ⟨fun e => hne (uniqueID_inj e), html_default_eq inf je g h₁, html_default_eq inf je g h₂⟩

/-- C4 witness: observed hashes 0 and 1. -/
theorem claim_C4_witness :
    uniqueID 0 ≠ uniqueID 1 ∧
    DotGraph.htmlW world0 ⟨"in.dot", none, none⟩ exGraph 0 =
      some (tplA ++ uniqueID 0 ++ tplB ++ jsonOf exGraph ++ tplC ++ uniqueID 0 ++
        tplD ++ uniqueID 0 ++ tplE) ∧
    DotGraph.htmlW world0 ⟨"in.dot", none, none⟩ exGraph 1 =
      some (tplA ++ uniqueID 1 ++ tplB ++ jsonOf exGraph ++ tplC ++ uniqueID 1 ++
        tplD ++ uniqueID 1 ++ tplE) :=
  claim_C4 "in.dot" none exGraph 0 1 (by decide)

/-- C4 counterexample to the claim as stated: two calls that observe the
same time-hash value (the clock resolution permits this) produce identical
`uniqueID` strings, so "always different" does not hold. -/
theorem claim_C4_cex : ¬ (∀ h₁ h₂ : Int, uniqueID h₁ ≠ uniqueID h₂) :=
  fun hc => hc 0 0 rfl

/-- C5: for every well-formed graph (edge endpoints are nodes, as networkx
maintains), every link of the node-link mapping carries source and target
indices strictly below the length of the node sequence of the same call. -/
theorem claim_C5 (g : Graph) (hwf : g.WF) :
    ∀ l ∈ (node_link_data g).links,
      l.source < (node_link_data g).nodes.length ∧
        l.target < (node_link_data g).nodes.length := by
  intro l hl
  have hlen : (node_link_data g).nodes.length = g.ids.length := by
    simp [node_link_data, Graph.ids]
  rw [show (node_link_data g).links =
    g.edges.map (fun e => NLLink.mk e.2.2 (g.ids.indexOf e.1) (g.ids.indexOf e.2.1))
    from rfl] at hl
  obtain ⟨e, he, rfl⟩ := List.mem_map.mp hl
  have hw := hwf e he
  rw [hlen]
  exact ⟨indexOf_lt_length_of_mem hw.1, indexOf_lt_length_of_mem hw.2⟩

/-- C5 witness: the example graph. -/
theorem claim_C5_witness :
    Graph.WF exGraph ∧
    (∀ l ∈ (node_link_data exGraph).links,
      l.source < (node_link_data exGraph).nodes.length ∧
        l.target < (node_link_data exGraph).nodes.length) :=
  ⟨by decide, claim_C5 exGraph (by decide)⟩

/-- C6: the `json` property returns the encoding of the freshly recomputed
node-link value of the current input (independently of any stored encoder),
and its only effect on the instance is setting the `_jenc` encoder field —
created on first access, kept as is afterwards; `infile` and the template
override are untouched and no string is memoized. -/
theorem claim_C6 (dg : DotGraph) (g : Graph) :
    dg.jsonAccess g = (jsonOf g, { dg with jenc := some (dg.jenc.getD ⟨⟩) }) := rfl

/-- C7: construction stores the path and the optional template override,
touches no other state (the world is returned unchanged), performs no file
access (it is a total function of its arguments alone, for any path string,
existing or not), and resolving the template yields the supplied override
when one was given and the class default otherwise. -/
theorem claim_C7 (w : PyWorld) (inf : String) (t : Option Str) (s : Str) :
    DotGraph.init w inf t = ({ infile := inf, tmplOverride := t, jenc := none }, w) ∧
    DotGraph.activeTemplate w (DotGraph.init w inf (some s)).1 = s ∧
    DotGraph.activeTemplate w (DotGraph.init w inf none).1 = w.classTemplate :=
  ⟨rfl, rfl, rfl⟩

/-- C8: `render` returns exactly the html text that the `html` property
produces (the notebook wrapper's string representation is the wrapped
fragment). -/
theorem claim_C8 (w : PyWorld) (dg : DotGraph) (g : Graph) (t : Int) :
    dg.renderW w g t = dg.htmlW w g t := by
  unfold DotGraph.renderW
  cases dg.htmlW w g t <;> rfl

/-- C9: constructing an instance with a custom template containing only the
`%(uniqueID)s` and `%(JSONData)s` placeholders makes the html property
substitute both values and raise no error: the result is `some` of the
template with `uniqueID t` and `jsonOf g` substituted for the respective
placeholders (`substToks` with the html format mapping). -/
theorem claim_C9 (inf : String) (toks : List Tok) (g : Graph) (t : Int)
    (hlit : ∀ s, Tok.lit s ∈ toks → '%' ∉ s)
    (hkey : ∀ k, Tok.key k ∈ toks → k = "uniqueID".data ∨ k = "JSONData".data) :
    DotGraph.htmlW world0 ⟨inf, some (assembleTpl toks), none⟩ g t =
      some (substToks (formatMap t g) toks) := by
  refine htmlW_toks world0 _ g t toks rfl ?_
  intro tok htok
  cases tok with
  | lit s => exact hlit s htok
  | key k =>
    rcases hkey k htok with rfl | rfl
    · exact ⟨by decide, rfl⟩
    · exact ⟨by decide, rfl⟩

/-- C9 witness: a concrete two-placeholder template. -/
theorem claim_C9_witness :
    DotGraph.htmlW world0 ⟨"in.dot", some (assembleTpl exToks), none⟩ exGraph 7 =
      some (substToks (formatMap 7 exGraph) exToks) :=
  claim_C9 "in.dot" exToks exGraph 7
    (by
      intro s hs
      simp only [exToks, List.mem_cons, List.not_mem_nil, or_false] at hs
      rcases hs with hs | hs | hs | hs | hs <;> simp at hs <;> subst hs <;> decide)
    (by
      intro k hk
      simp only [exToks, List.mem_cons, List.not_mem_nil, or_false] at hk
      rcases hk with hk | hk | hk | hk | hk <;> simp at hk <;> subst hk <;> simp)

/-- C10: a custom template supplied at construction sets only that
instance's override field; the class-level default template is unchanged,
and any other instance constructed without a template (in the world as it
stands after that construction) still resolves to the original default
template. -/
theorem claim_C10 (w : PyWorld) (inf inf' : String) (s : Str) :
    (DotGraph.init w inf (some s)).1.tmplOverride = some s ∧
    (DotGraph.init w inf (some s)).2 = w ∧
    (DotGraph.init world0 inf (some s)).2.classTemplate = defaultTemplate ∧
    DotGraph.activeTemplate (DotGraph.init world0 inf (some s)).2
      (DotGraph.init (DotGraph.init world0 inf (some s)).2 inf' none).1 = defaultTemplate :=
  ⟨rfl, rfl, rfl, rfl⟩

end Dotgraph
